import Mathlib

/-!
Verification of the object advisory-lock class (`cls_lock.cc`).

The development shallowly embeds the lock class: the lock-grant engine
(`lock_obj`), the release engine (`remove_lock`), the record codec with its
expiry sweep (`read_lock` / `write_lock`), the in-memory bid registry, and
the read-only queries (`get_info`, `list_locks`).  Machine integers are
modelled as `Int`/`Nat` (no overflow is relevant to the properties below),
entity names and addresses as `Nat`, byte strings as `String`, and the
`std::map`s of the source as association lists with the same
find / erase / insert-or-assign behaviour.
-/

set_option linter.unusedVariables false

namespace LockCls

/-- Linux errno used by the source, stored positively; return codes negate it. -/
def ENOENT : Int := 2

/-- errno EIO. -/
def EIO : Int := 5

/-- errno EBUSY. -/
def EBUSY : Int := 16

/-- errno EEXIST. -/
def EEXIST : Int := 17

/-- errno EINVAL. -/
def EINVAL : Int := 22

/-- errno ENODATA, reported by the attribute store when an attribute is absent. -/
def ENODATA : Int := 61

/-- Lock kinds, from the spec's data model (the `ClsLockType` enum is declared
in a header outside the packaged sources): None, Exclusive, Shared,
ExclusiveEphemeral. -/
inductive ClsLockType where
  | NONE
  | EXCLUSIVE
  | SHARED
  | EXCLUSIVE_EPHEMERAL
deriving DecidableEq

/-- Modelled from the spec: a kind is valid when it is Exclusive, Shared or
ExclusiveEphemeral (`cls_lock_is_valid`, declared in a header outside the
packaged sources). -/
def cls_lock_is_valid (t : ClsLockType) : Bool :=
  t = ClsLockType.EXCLUSIVE ∨ t = ClsLockType.SHARED ∨
    t = ClsLockType.EXCLUSIVE_EPHEMERAL

/-- Modelled from the spec: Exclusive and ExclusiveEphemeral are the exclusive
kinds (`cls_lock_is_exclusive`, declared in a header outside the packaged
sources). -/
def cls_lock_is_exclusive (t : ClsLockType) : Bool :=
  t = ClsLockType.EXCLUSIVE ∨ t = ClsLockType.EXCLUSIVE_EPHEMERAL

/-- Modelled from the spec: ExclusiveEphemeral is the ephemeral kind
(`cls_lock_is_ephemeral`, declared in a header outside the packaged
sources). -/
def cls_lock_is_ephemeral (t : ClsLockType) : Bool :=
  t = ClsLockType.EXCLUSIVE_EPHEMERAL

/-- Structure `locker_id_t`: requester entity name (modelled as `Nat`) plus cookie. -/
structure locker_id_t where
  locker : Nat
  cookie : String
deriving DecidableEq

/-- Structure `locker_info_t`: expiration (`0` = never expires), holder address
(modelled as `Nat`), free-text description. -/
structure locker_info_t where
  expiration : Nat
  addr : Nat
  description : String
deriving DecidableEq

/-- Structure `lock_info_t`: persisted lock record — kind, tag, lockers map. -/
structure lock_info_t where
  lock_type : ClsLockType
  tag : String
  lockers : List (locker_id_t × locker_info_t)
deriving DecidableEq

/-- The default-constructed `lock_info_t` (kind None, no tag, no lockers). -/
def emptyLockInfo : lock_info_t :=
  ⟨ClsLockType.NONE, "", []⟩

/-- Decidable equality on `Except`, so concrete runs can be checked by
`decide`. -/
instance exceptDecEq {ε α : Type} [DecidableEq ε] [DecidableEq α] :
    DecidableEq (Except ε α) := fun a b =>
  match a, b with
  | Except.error e, Except.error f =>
      if h : e = f then isTrue (by rw [h])
      else isFalse (fun hc => h (by injection hc))
  | Except.error e, Except.ok y => isFalse (fun hc => Except.noConfusion hc)
  | Except.ok x, Except.error f => isFalse (fun hc => Except.noConfusion hc)
  | Except.ok x, Except.ok y =>
      if h : x = y then isTrue (by rw [h])
      else isFalse (fun hc => h (by injection hc))

/-- Operation `std::map::find`, on an association list: first value stored at the key. -/
def mapFind {α β : Type} [DecidableEq α] : List (α × β) → α → Option β
  | [], _ => none
  | (k, v) :: rest, k' => if k = k' then some v else mapFind rest k'

/-- Operation `std::map::erase(key)`: drop every entry stored at the key. -/
def mapErase {α β : Type} [DecidableEq α] (m : List (α × β)) (k : α) :
    List (α × β) :=
  m.filter (fun p => p.1 ≠ k)

/-- Operation `std::map::operator[]=` / emplace-then-assign: replace the entry at the
key, or add one. -/
def mapInsert {α β : Type} [DecidableEq α] (m : List (α × β)) (k : α) (v : β) :
    List (α × β) :=
  mapErase m k ++ [(k, v)]

/-- The expiry sweep of `read_lock` (lines 79-89): erase every locker whose
expiration is set (non-zero) and earlier than `now`. -/
def sweepLockers (now : Nat) (ls : List (locker_id_t × locker_info_t)) :
    List (locker_id_t × locker_info_t) :=
  ls.filter (fun p => p.2.expiration = 0 ∨ ¬ p.2.expiration < now)

/-- A stored attribute blob: either bytes that fail to decode, or an encoded
lock record. -/
inductive Blob where
  | malformed
  | record (rec : lock_info_t)
deriving DecidableEq

/-- The xattrs of one object: attribute name ↦ blob. -/
abbrev ObjAttrs := List (String × Blob)

/-- Key `LOCK_PREFIX + name`: the attribute key that stores lock `name`. -/
def lockKey (name : String) : String :=
  "lock." ++ name

/-- Modelled from the spec: the AttributeStore adapter's get — an absent
attribute is reported as `-ENODATA` (`cls_cxx_getxattr` is host code outside
the packaged sources). -/
def getxattr (attrs : ObjAttrs) (key : String) : Except Int Blob :=
  match mapFind attrs key with
  | none => Except.error (-ENODATA)
  | some b => Except.ok b

/-- The pure part of `read_lock` (lines 47-99), over the raw store-get result:
`-ENODATA` yields the default record; any other store error propagates
unchanged; undecodable bytes yield `-EIO`; otherwise the record is returned
with expired lockers swept, and the second component flags the best-effort
delete performed when the swept record is empty and of the ephemeral kind. -/
def read_lock_core (now : Nat) (g : Except Int Blob) :
    Except Int lock_info_t × Bool :=
  match g with
  | Except.error e =>
      if e = -ENODATA then (Except.ok emptyLockInfo, false)
      else (Except.error e, false)
  | Except.ok Blob.malformed => (Except.error (- EIO), false)
  | Except.ok (Blob.record rec) =>
      (Except.ok { rec with lockers := sweepLockers now rec.lockers },
       (sweepLockers now rec.lockers).isEmpty && cls_lock_is_ephemeral rec.lock_type)

/-- Function `read_lock` against the object's attributes, performing the best-effort
`clean_lock` delete of a swept-empty ephemeral record. -/
def read_lock (now : Nat) (attrs : ObjAttrs) (name : String) :
    Except Int lock_info_t × ObjAttrs :=
  match read_lock_core now (getxattr attrs (lockKey name)) with
  | (res, true) => (res, mapErase attrs (lockKey name))
  | (res, false) => (res, attrs)

/-- Function `write_lock` (lines 101-115): encode and store the record under its key. -/
def write_lock (attrs : ObjAttrs) (name : String) (rec : lock_info_t) :
    ObjAttrs :=
  mapInsert attrs (lockKey name) (Blob.record rec)

/-- Structure `BidRecord` (lines 147-150): bid amount and expiration. -/
structure BidRecord where
  amount : Int
  expiration : Nat
deriving DecidableEq

/-- Innermost level of the bid registry: requester entity ↦ bid. -/
abbrev ClientBidMap := List (Nat × BidRecord)

/-- Middle level of the bid registry: lock name ↦ client bids. -/
abbrev LockBidMap := List (String × ClientBidMap)

/-- The process-wide bid registry: object id ↦ lock name ↦ requester ↦ bid. -/
abbrev ObjectBidMap := List (String × LockBidMap)

/-- The client bid map registered for one (object, lock name), empty levels
read as empty maps (mirroring the emplace-of-empty in lines 233-240). -/
def bidsFor (bids : ObjectBidMap) (obj_id : String) (name : String) :
    ClientBidMap :=
  match mapFind bids obj_id with
  | none => []
  | some lbm =>
      match mapFind lbm name with
      | none => []
      | some cbm => cbm

/-- Store back the client bid map of one (object, lock name), leaving every
other entry of the registry alone. -/
def setBidsFor (bids : ObjectBidMap) (obj_id : String) (name : String)
    (cbm : ClientBidMap) : ObjectBidMap :=
  mapInsert bids obj_id
    (mapInsert ((mapFind bids obj_id).getD []) name cbm)

/-- Lines 233-248: insert or replace the requester's bid under
(object, lock name). -/
def registerBid (bids : ObjectBidMap) (obj_id : String) (name : String)
    (requester : Nat) (rec : BidRecord) : ObjectBidMap :=
  setBidsFor bids obj_id name (mapInsert (bidsFor bids obj_id name) requester rec)

/-- The erasure of dead bids done by the arbitration scan (lines 314-326):
every bid with `expiration < now` is dropped. -/
def pruneBids (now : Nat) (cbm : ClientBidMap) : ClientBidMap :=
  cbm.filter (fun p => ¬ p.2.expiration < now)

/-- The arbitration scan's running minimum (lines 313-326): starting from this
request's own amount, take the least amount among the unexpired bids. -/
def bestBid (now : Nat) (start : Int) (cbm : ClientBidMap) : Int :=
  (pruneBids now cbm).foldl
    (fun b p => if p.2.amount < b then p.2.amount else b) start

/-- The decoded `cls_lock_lock_op` request, with the two flag bits expanded
into their boolean meanings (`LOCK_FLAG_MAY_RENEW`, `LOCK_FLAG_MUST_RENEW`). -/
structure LockArgs where
  name : String
  lock_type : ClsLockType
  duration : Nat
  description : String
  may_renew : Bool
  must_renew : Bool
  cookie : String
  tag : String
  bid_amount : Int
  bid_duration : Nat
deriving DecidableEq

/-- The world a `lock` call sees: the object's attributes plus the process-wide
bid registry. -/
structure World where
  attrs : ObjAttrs
  bids : ObjectBidMap
deriving DecidableEq

/-- Step 1 of `lock_obj` (lines 203-249): when a bid accompanies the request,
insert/refresh it in the registry with expiration `now + bid_duration`. -/
def regBids (now : Nat) (obj_id : String) (origin : Nat) (args : LockArgs)
    (bids : ObjectBidMap) : ObjectBidMap :=
  if 0 ≤ args.bid_amount then
    registerBid bids obj_id args.name origin
      ⟨args.bid_amount, now + args.bid_duration⟩
  else bids

/-- Lines 335-357 of `lock_obj`: on grant, set kind and tag from the request,
compute the expiration (`0` duration = never expires), and store the caller's
locker entry. -/
def finishLock (now : Nat) (origin : Nat) (args : LockArgs) (attrs : ObjAttrs)
    (bids : ObjectBidMap)
    (remaining : List (locker_id_t × locker_info_t)) : Int × World :=
  (0,
   ⟨write_lock attrs args.name
      ⟨args.lock_type, args.tag,
       mapInsert remaining ⟨origin, args.cookie⟩
         ⟨(if args.duration = 0 then 0 else now + args.duration), origin,
          args.description⟩⟩,
    bids⟩)

/-- Lines 309-333 of `lock_obj`: bid arbitration.  Skipped when renewing or
bidless; otherwise dead bids are erased from the registry and the request
fails busy unless its amount is the least unexpired amount. -/
def bidCheck (now : Nat) (obj_id : String) (origin : Nat) (args : LockArgs)
    (attrs : ObjAttrs) (bids : ObjectBidMap) (is_renewing : Bool)
    (remaining : List (locker_id_t × locker_info_t)) : Int × World :=
  if is_renewing = false ∧ 0 ≤ args.bid_amount then
    if args.bid_amount ≠ bestBid now args.bid_amount (bidsFor bids obj_id args.name) then
      (-EBUSY,
       ⟨attrs, setBidsFor bids obj_id args.name
          (pruneBids now (bidsFor bids obj_id args.name))⟩)
    else
      finishLock now origin args attrs
        (setBidsFor bids obj_id args.name
          (pruneBids now (bidsFor bids obj_id args.name)))
        remaining
  else finishLock now origin args attrs bids remaining

/-- Lines 290-307 of `lock_obj`: with other lockers remaining, an exclusive
request is busy, and a kind different from the record's kind is busy. -/
def capacityCheck (now : Nat) (obj_id : String) (origin : Nat)
    (args : LockArgs) (attrs : ObjAttrs) (bids : ObjectBidMap)
    (existing_type : ClsLockType) (is_renewing : Bool)
    (remaining : List (locker_id_t × locker_info_t)) : Int × World :=
  if remaining ≠ [] ∧ cls_lock_is_exclusive args.lock_type = true then
    (-EBUSY, ⟨attrs, bids⟩)
  else if remaining ≠ [] ∧ existing_type ≠ args.lock_type then
    (-EBUSY, ⟨attrs, bids⟩)
  else bidCheck now obj_id origin args attrs bids is_renewing remaining

/-- Lines 258-357 of `lock_obj`: the decision sequence applied to the
post-sweep record — tag check, existence checks (erasing the caller's stale
entry on renewal), capacity check, bid arbitration, grant. -/
def lock_obj_withRecord (now : Nat) (obj_id : String) (origin : Nat)
    (args : LockArgs) (attrs : ObjAttrs) (bids : ObjectBidMap)
    (linfo : lock_info_t) : Int × World :=
  if linfo.lockers ≠ [] ∧ args.tag ≠ linfo.tag then (-EBUSY, ⟨attrs, bids⟩)
  else
    match mapFind linfo.lockers ⟨origin, args.cookie⟩ with
    | some _ =>
        if args.may_renew = false ∧ args.must_renew = false then
          (-EEXIST, ⟨attrs, bids⟩)
        else
          capacityCheck now obj_id origin args attrs bids linfo.lock_type true
            (mapErase linfo.lockers ⟨origin, args.cookie⟩)
    | none =>
        if args.must_renew = true then (-ENOENT, ⟨attrs, bids⟩)
        else
          capacityCheck now obj_id origin args attrs bids linfo.lock_type false
            linfo.lockers

/-- Function `lock_obj` (lines 136-358): validation, bid registration, record read with
sweep, then the decision sequence.  Returns the call's return code and the
resulting world. -/
def lock_obj (now : Nat) (obj_id : String) (origin : Nat) (args : LockArgs)
    (w : World) : Int × World :=
  if cls_lock_is_valid args.lock_type = false then (-EINVAL, w)
  else if args.name = "" then (-EINVAL, w)
  else if args.may_renew = true ∧ args.must_renew = true then (-EINVAL, w)
  else if 0 ≤ args.bid_amount ∧ cls_lock_is_exclusive args.lock_type = false then
    (-EINVAL, w)
  else
    match read_lock now w.attrs args.name with
    | (Except.error e, attrs1) =>
        if e = -ENOENT then
          lock_obj_withRecord now obj_id origin args attrs1
            (regBids now obj_id origin args w.bids) emptyLockInfo
        else (e, ⟨attrs1, regBids now obj_id origin args w.bids⟩)
    | (Except.ok linfo, attrs1) =>
        lock_obj_withRecord now obj_id origin args attrs1
          (regBids now obj_id origin args w.bids) linfo

/-- Function `remove_lock` (lines 397-428): read with sweep, drop the named locker
(`-ENOENT` if absent), then delete the record if ephemeral, else rewrite it.
`none` models the `ceph_assert` on line 421 firing (an ephemeral record that
still has lockers after the erase aborts the process). -/
def remove_lock (now : Nat) (attrs : ObjAttrs) (name : String) (locker : Nat)
    (cookie : String) : Option (Int × ObjAttrs) :=
  match read_lock now attrs name with
  | (Except.error e, attrs1) => some (e, attrs1)
  | (Except.ok linfo, attrs1) =>
      match mapFind linfo.lockers ⟨locker, cookie⟩ with
      | none => some (-ENOENT, attrs1)
      | some _ =>
          if cls_lock_is_ephemeral linfo.lock_type = true then
            if mapErase linfo.lockers ⟨locker, cookie⟩ = [] then
              some (0, mapErase attrs1 (lockKey name))
            else none
          else
            some (0, write_lock attrs1 name
              { linfo with lockers := mapErase linfo.lockers ⟨locker, cookie⟩ })

/-- Function `get_info` (lines 495-526): read with sweep and copy kind, tag and lockers
into the reply. -/
def get_info (now : Nat) (attrs : ObjAttrs) (name : String) :
    Except Int lock_info_t × ObjAttrs :=
  match read_lock now attrs name with
  | (Except.error e, attrs1) => (Except.error e, attrs1)
  | (Except.ok linfo, attrs1) =>
      (Except.ok ⟨linfo.lock_type, linfo.tag, linfo.lockers⟩, attrs1)

/-- Function `list_locks` (lines 540-564): every attribute whose first five characters
are `lock.`, with those five characters stripped. -/
def list_locks (attrs : ObjAttrs) : List String :=
  attrs.filterMap (fun p =>
    if p.1.data.take 5 = "lock.".data then some (String.mk (p.1.data.drop 5))
    else none)

/-- A sequence of `lock` calls against one object, each by its own requester,
executed in order; collects the return codes and the final world. -/
def runCalls (now : Nat) (obj_id : String) (calls : List (Nat × LockArgs))
    (w : World) : List Int × World :=
  match calls with
  | [] => ([], w)
  | (origin, args) :: rest =>
      let r := lock_obj now obj_id origin args w
      let rr := runCalls now obj_id rest r.2
      (r.1 :: rr.1, rr.2)

/-- A sequence of `lock` calls in which every call reads its own clock value:
each element carries (now, requester, request). -/
def runCallsAt (obj_id : String) (calls : List (Nat × Nat × LockArgs))
    (w : World) : List Int × World :=
  match calls with
  | [] => ([], w)
  | (now, origin, args) :: rest =>
      let r := lock_obj now obj_id origin args w
      let rr := runCallsAt obj_id rest r.2
      (r.1 :: rr.1, rr.2)

/-- Every stored record of an exclusive kind has at most one locker. -/
def AttrsInv (attrs : ObjAttrs) : Prop :=
  ∀ key rec, mapFind attrs key = some (Blob.record rec) →
    cls_lock_is_exclusive rec.lock_type = true → rec.lockers.length ≤ 1

/-- Every record of an exclusive kind held in the world's attribute store has
at most one locker. -/
def WorldInv (w : World) : Prop :=
  AttrsInv w.attrs

/-- For an exclusive request that survives validation, the tag check and the
existence checks (the caller's own stale entry having been erased when
renewing), any other remaining locker forces a `-EBUSY` rejection. -/
def exclBusyRejection (now : Nat) (obj_id : String) (origin : Nat)
    (args : LockArgs) (w : World) : Prop :=
  ∀ rec attrs1,
    read_lock now w.attrs args.name = (Except.ok rec, attrs1) →
    cls_lock_is_exclusive args.lock_type = true →
    args.name ≠ "" →
    ¬(args.may_renew = true ∧ args.must_renew = true) →
    (rec.lockers ≠ [] → args.tag = rec.tag) →
    ((mapFind rec.lockers ⟨origin, args.cookie⟩).isSome = true →
      ¬(args.may_renew = false ∧ args.must_renew = false)) →
    (mapFind rec.lockers ⟨origin, args.cookie⟩ = none →
      args.must_renew = false) →
    mapErase rec.lockers ⟨origin, args.cookie⟩ ≠ [] →
    (lock_obj now obj_id origin args w).1 = -EBUSY

/-- Any store error other than `-ENODATA` propagates out of the read
unchanged. -/
def storeErrorsPropagate (now : Nat) : Prop :=
  ∀ e : Int, e ≠ -ENODATA →
    read_lock_core now (Except.error e) = (Except.error e, false)

/-- The stored record's tag under a lock name, when a record is stored. -/
def recordTagAt (attrs : ObjAttrs) (name : String) : Option String :=
  match mapFind attrs (lockKey name) with
  | some (Blob.record rec) => some rec.tag
  | _ => none

/-- The stored record's lockers under a lock name, when a record is stored. -/
def storedLockersAt (attrs : ObjAttrs) (name : String) :
    Option (List (locker_id_t × locker_info_t)) :=
  match mapFind attrs (lockKey name) with
  | some (Blob.record rec) => some rec.lockers
  | _ => none

/-- The request's amount is the least among all unexpired bids registered for
the object and lock name (its own registered bid included), i.e. no unexpired
registered bid undercuts it. -/
def ownBidLowest (now : Nat) (obj_id : String) (args : LockArgs)
    (bids1 : ObjectBidMap) : Prop :=
  ∀ p ∈ pruneBids now (bidsFor bids1 obj_id args.name),
    args.bid_amount ≤ p.2.amount

/-- If the bidded call succeeds, the caller's amount was the minimum among the
unexpired bids registered after its own registration. -/
def bidSuccessLowest (now : Nat) (obj_id : String) (origin : Nat)
    (args : LockArgs) (w : World) : Prop :=
  (lock_obj now obj_id origin args w).1 = 0 →
    ownBidLowest now obj_id args (regBids now obj_id origin args w.bids)

/-- If the record is free, the caller is not renewing, and its amount is not
the minimum unexpired bid, the call is rejected `-EBUSY`. -/
def bidNotLowestBusy (now : Nat) (obj_id : String) (origin : Nat)
    (args : LockArgs) (w : World) (rec : lock_info_t) : Prop :=
  rec.lockers = [] → args.must_renew = false →
  args.bid_amount ≠ bestBid now args.bid_amount
    (bidsFor (regBids now obj_id origin args w.bids) obj_id args.name) →
  (lock_obj now obj_id origin args w).1 = -EBUSY

/-- A bid whose expiration is earlier than `now` never changes the computed
minimum of the arbitration scan. -/
def expiredBidsNeverCount (now : Nat) : Prop :=
  ∀ (s : Int) (r : Nat) (brec : BidRecord) (cbm : ClientBidMap),
    brec.expiration < now → bestBid now s ((r, brec) :: cbm) = bestBid now s cbm

/-- One bidder of the bidding-monotonicity scenario: requester `a.toNat` asks
for an exclusive lock on `"foo"` with bid amount `a` and bid duration 50. -/
def c3call (a : Int) (cookie : String) : Nat × LockArgs :=
  (a.toNat, ⟨"foo", ClsLockType.EXCLUSIVE, 0, "", false, false, cookie, "", a, 50⟩)

/-- An empty object with the three concurrent bids 5, 3, 7 registered for
(object `"obj"`, lock `"foo"`), all expiring at time 150. -/
def c3World : World :=
  ⟨[], [("obj", [("foo", [(5, ⟨5, 150⟩), (3, ⟨3, 150⟩), (7, ⟨7, 150⟩)])])]⟩

/-- The store of the C7 counterexample: an ephemeral record whose only locker
expired at time 50. -/
def c7attrs : ObjAttrs :=
  [("lock.foo", Blob.record ⟨ClsLockType.EXCLUSIVE_EPHEMERAL, "",
    [(⟨1, "c"⟩, ⟨50, 1, ""⟩)]⟩)]

/-- Amended C7, not-found arm: with no entry for the id in the post-sweep
record, the release fails `-ENOENT` and the store is exactly the post-read
state — unchanged but for the read-time sweep's possible delete of a
swept-empty ephemeral record. -/
def releaseNotFound (now : Nat) (attrs : ObjAttrs) (name : String)
    (locker : Nat) (cookie : String) : Prop :=
  ∀ rec attrs1, read_lock now attrs name = (Except.ok rec, attrs1) →
    mapFind rec.lockers ⟨locker, cookie⟩ = none →
    remove_lock now attrs name locker cookie = some (-ENOENT, attrs1)

/-- Amended C7, ephemeral arm: releasing the found locker of an
ephemeral-kind record (which holds at most one locker) deletes the attribute,
after which `list_locks` no longer reports the name and `get_info` returns
the default record. -/
def releaseEphemeralDeletes (now : Nat) (attrs : ObjAttrs) (name : String)
    (locker : Nat) (cookie : String) : Prop :=
  ∀ rec attrs1 info, read_lock now attrs name = (Except.ok rec, attrs1) →
    mapFind rec.lockers ⟨locker, cookie⟩ = some info →
    cls_lock_is_ephemeral rec.lock_type = true →
    rec.lockers.length ≤ 1 →
    remove_lock now attrs name locker cookie =
      some (0, mapErase attrs1 (lockKey name))
    ∧ name ∉ list_locks (mapErase attrs1 (lockKey name))
    ∧ ∀ now2, get_info now2 (mapErase attrs1 (lockKey name)) name =
        (Except.ok emptyLockInfo, mapErase attrs1 (lockKey name))

/-- Amended C7, non-ephemeral arm: releasing the found locker rewrites the
record with exactly that entry removed. -/
def releaseOtherRewrites (now : Nat) (attrs : ObjAttrs) (name : String)
    (locker : Nat) (cookie : String) : Prop :=
  ∀ rec attrs1 info, read_lock now attrs name = (Except.ok rec, attrs1) →
    mapFind rec.lockers ⟨locker, cookie⟩ = some info →
    cls_lock_is_ephemeral rec.lock_type = false →
    remove_lock now attrs name locker cookie =
      some (0, write_lock attrs1 name
        { rec with lockers := mapErase rec.lockers ⟨locker, cookie⟩ })

/-! ### Association-list lemmas -/

theorem mapFind_eq_none {α β : Type} [DecidableEq α] {m : List (α × β)} {k : α}
    (h : ∀ p ∈ m, p.1 ≠ k) : mapFind m k = none := by
  induction m with
  | nil => rfl
  | cons p rest ih =>
      obtain ⟨k0, v0⟩ := p
      simp only [mapFind]
      rw [if_neg (h (k0, v0) (List.mem_cons_self _ _))]
      exact ih (fun q hq => h q (List.mem_cons_of_mem _ hq))

theorem mapFind_none_forall {α β : Type} [DecidableEq α] {m : List (α × β)}
    {k : α} (h : mapFind m k = none) : ∀ p ∈ m, p.1 ≠ k := by
  induction m with
  | nil => intro p hp; cases hp
  | cons p rest ih =>
      obtain ⟨k0, v0⟩ := p
      simp only [mapFind] at h
      intro q hq
      rcases List.mem_cons.mp hq with hq | hq
      · subst hq
        intro hc
        rw [if_pos hc] at h
        cases h
      · by_cases hk : k0 = k
        · rw [if_pos hk] at h; cases h
        · rw [if_neg hk] at h; exact ih h q hq

theorem mapFind_mapErase {α β : Type} [DecidableEq α] (m : List (α × β))
    (k k' : α) :
    mapFind (mapErase m k) k' = if k' = k then none else mapFind m k' := by
  induction m with
  | nil =>
      simp only [mapErase, List.filter_nil, mapFind, ite_self]
  | cons p rest ih =>
      obtain ⟨k0, v0⟩ := p
      by_cases h1 : k0 = k
      · have : mapErase ((k0, v0) :: rest) k = mapErase rest k := by
          simp [mapErase, List.filter_cons, h1]
        rw [this, ih]
        by_cases h2 : k' = k
        · simp [h2]
        · have h3 : k0 ≠ k' := by rw [h1]; exact fun hc => h2 hc.symm
          simp [h2, mapFind, h3]
      · have : mapErase ((k0, v0) :: rest) k = (k0, v0) :: mapErase rest k := by
          simp [mapErase, List.filter_cons, h1]
        rw [this]
        by_cases h3 : k0 = k'
        · have h2 : ¬ k' = k := by rw [← h3]; exact fun hc => h1 hc
          simp [mapFind, h3, h2]
        · simp only [mapFind, if_neg h3, ih]

theorem mapErase_eq_self {α β : Type} [DecidableEq α] {m : List (α × β)}
    {k : α} (h : mapFind m k = none) : mapErase m k = m := by
  apply List.filter_eq_self.mpr
  intro p hp
  simpa using mapFind_none_forall h p hp

theorem mapFind_append {α β : Type} [DecidableEq α] (xs ys : List (α × β))
    (k : α) :
    mapFind (xs ++ ys) k =
      match mapFind xs k with
      | some v => some v
      | none => mapFind ys k := by
  induction xs with
  | nil => rfl
  | cons p rest ih =>
      obtain ⟨k0, v0⟩ := p
      by_cases hk : k0 = k
      · simp [mapFind, hk]
      · simp only [List.cons_append, mapFind, if_neg hk]
        exact ih

theorem mapFind_mapInsert {α β : Type} [DecidableEq α] (m : List (α × β))
    (k k' : α) (v : β) :
    mapFind (mapInsert m k v) k' = if k' = k then some v else mapFind m k' := by
  unfold mapInsert
  rw [mapFind_append]
  by_cases h : k' = k
  · rw [mapFind_mapErase, if_pos h]
    simp [mapFind, h.symm]
  · rw [mapFind_mapErase, if_neg h]
    cases hF : mapFind m k' with
    | some v0 => simp [h]
    | none =>
        have hkk : ¬ k = k' := fun hc => h hc.symm
        simp [mapFind, hkk, h]

theorem mapErase_mapErase {α β : Type} [DecidableEq α] (m : List (α × β))
    (k : α) : mapErase (mapErase m k) k = mapErase m k := by
  simp [mapErase, List.filter_filter]

theorem mapErase_append {α β : Type} [DecidableEq α] (xs ys : List (α × β))
    (k : α) : mapErase (xs ++ ys) k = mapErase xs k ++ mapErase ys k := by
  simp [mapErase, List.filter_append]

theorem mapErase_mapInsert {α β : Type} [DecidableEq α] (m : List (α × β))
    (k : α) (v : β) : mapErase (mapInsert m k v) k = mapErase m k := by
  unfold mapInsert
  rw [mapErase_append, mapErase_mapErase]
  simp [mapErase, List.filter_cons]

theorem mapInsert_mapErase {α β : Type} [DecidableEq α] (m : List (α × β))
    (k : α) (v : β) : mapInsert (mapErase m k) k v = mapInsert m k v := by
  unfold mapInsert
  rw [mapErase_mapErase]

theorem length_mapErase_of_found {α β : Type} [DecidableEq α]
    {m : List (α × β)} {k : α} {v : β}
    (hn : (m.map Prod.fst).Nodup) (h : mapFind m k = some v) :
    (mapErase m k).length + 1 = m.length := by
  induction m with
  | nil => cases h
  | cons p rest ih =>
      obtain ⟨k0, v0⟩ := p
      simp only [List.map_cons, List.nodup_cons] at hn
      by_cases hk : k0 = k
      · have he : mapErase ((k0, v0) :: rest) k = mapErase rest k := by
          simp [mapErase, List.filter_cons, hk]
        have hrest : mapFind rest k = none := by
          apply mapFind_eq_none
          intro q hq hc
          exact hn.1 (by rw [hk, ← hc]; exact List.mem_map_of_mem Prod.fst hq)
        rw [he, mapErase_eq_self hrest]
        simp
      · have he : mapErase ((k0, v0) :: rest) k = (k0, v0) :: mapErase rest k := by
          simp [mapErase, List.filter_cons, hk]
        simp only [mapFind, if_neg hk] at h
        rw [he]
        simp only [List.length_cons]
        rw [ih hn.2 h]

theorem mapErase_eq_nil_of_short {α β : Type} [DecidableEq α]
    {m : List (α × β)} {k : α} {v : β}
    (hlen : m.length ≤ 1) (h : mapFind m k = some v) : mapErase m k = [] := by
  match m with
  | [] => cases h
  | [p] =>
      obtain ⟨k0, v0⟩ := p
      simp only [mapFind] at h
      by_cases hk : k0 = k
      · simp [mapErase, List.filter_cons, hk]
      · rw [if_neg hk] at h; cases h
  | p :: q :: rest => simp at hlen

theorem mapFind_filter_none {α β : Type} [DecidableEq α]
    {m : List (α × β)} {k : α} (p : α × β → Bool)
    (h : mapFind m k = none) : mapFind (m.filter p) k = none := by
  apply mapFind_eq_none
  intro q hq
  exact mapFind_none_forall h q (List.mem_filter.mp hq).1

/-! ### Bid-scan lemmas -/

theorem foldl_min_le_acc (l : ClientBidMap) (acc : Int) :
    l.foldl (fun b p => if p.2.amount < b then p.2.amount else b) acc ≤ acc := by
  induction l generalizing acc with
  | nil => simp
  | cons p rest ih =>
      simp only [List.foldl_cons]
      by_cases h : p.2.amount < acc
      · rw [if_pos h]
        exact le_trans (ih _) (le_of_lt h)
      · rw [if_neg h]
        exact ih _

theorem foldl_min_le_mem {l : ClientBidMap} {q : Nat × BidRecord}
    (hq : q ∈ l) (acc : Int) :
    l.foldl (fun b p => if p.2.amount < b then p.2.amount else b) acc ≤
      q.2.amount := by
  induction l generalizing acc with
  | nil => cases hq
  | cons p rest ih =>
      simp only [List.foldl_cons]
      rcases List.mem_cons.mp hq with h | h
      · subst h
        by_cases hlt : q.2.amount < acc
        · rw [if_pos hlt]
          exact foldl_min_le_acc rest _
        · rw [if_neg hlt]
          exact le_trans (foldl_min_le_acc rest _) (le_of_not_lt hlt)
      · exact ih h _

theorem bestBid_le_start (now : Nat) (s : Int) (cbm : ClientBidMap) :
    bestBid now s cbm ≤ s :=
  foldl_min_le_acc _ _

theorem bestBid_le_mem {now : Nat} {cbm : ClientBidMap} {q : Nat × BidRecord}
    (h : q ∈ pruneBids now cbm) (s : Int) : bestBid now s cbm ≤ q.2.amount :=
  foldl_min_le_mem h s

theorem bestBid_cons_expired {now : Nat} {brec : BidRecord} (r : Nat)
    (s : Int) (cbm : ClientBidMap) (h : brec.expiration < now) :
    bestBid now s ((r, brec) :: cbm) = bestBid now s cbm := by
  unfold bestBid pruneBids
  rw [List.filter_cons]
  simp [h]

theorem bidsFor_setBidsFor (bids : ObjectBidMap) (o n : String)
    (cbm : ClientBidMap) : bidsFor (setBidsFor bids o n cbm) o n = cbm := by
  unfold bidsFor setBidsFor
  simp [mapFind_mapInsert]

theorem bidsFor_registerBid (bids : ObjectBidMap) (o n : String)
    (r : Nat) (rec : BidRecord) :
    bidsFor (registerBid bids o n r rec) o n =
      mapInsert (bidsFor bids o n) r rec := by
  unfold registerBid
  exact bidsFor_setBidsFor _ _ _ _

theorem mapFind_pruneBids_mapInsert {now : Nat} (cbm : ClientBidMap)
    (r : Nat) {rec : BidRecord} (h : ¬ rec.expiration < now) :
    mapFind (pruneBids now (mapInsert cbm r rec)) r = some rec := by
  unfold pruneBids mapInsert
  rw [List.filter_append]
  have h1 : mapFind ((mapErase cbm r).filter
      (fun p => ¬ p.2.expiration < now)) r = none := by
    apply mapFind_filter_none
    rw [mapFind_mapErase, if_pos rfl]
  rw [mapFind_append, h1]
  have h2 : now ≤ rec.expiration := Nat.le_of_not_lt h
  simp [mapFind, h2]

/-! ### The exclusivity invariant -/

theorem AttrsInv_mapErase {attrs : ObjAttrs} (h : AttrsInv attrs)
    (k : String) : AttrsInv (mapErase attrs k) := by
  intro key rec hfind hexcl
  rw [mapFind_mapErase] at hfind
  by_cases hk : key = k
  · rw [if_pos hk] at hfind; cases hfind
  · rw [if_neg hk] at hfind
    exact h key rec hfind hexcl

theorem AttrsInv_write {attrs : ObjAttrs} (h : AttrsInv attrs)
    {name : String} {rec : lock_info_t}
    (hr : cls_lock_is_exclusive rec.lock_type = true → rec.lockers.length ≤ 1) :
    AttrsInv (write_lock attrs name rec) := by
  intro key r hfind hexcl
  unfold write_lock at hfind
  rw [mapFind_mapInsert] at hfind
  by_cases hk : key = lockKey name
  · rw [if_pos hk] at hfind
    cases hfind
    exact hr hexcl
  · rw [if_neg hk] at hfind
    exact h key r hfind hexcl

theorem AttrsInv_read_lock {attrs : ObjAttrs} (h : AttrsInv attrs)
    (now : Nat) (name : String) : AttrsInv (read_lock now attrs name).2 := by
  unfold read_lock
  rcases hc : read_lock_core now (getxattr attrs (lockKey name)) with ⟨res, flag⟩
  cases flag
  · exact h
  · exact AttrsInv_mapErase h _

theorem AttrsInv_finishLock {attrs : ObjAttrs} (h : AttrsInv attrs)
    (now : Nat) (origin : Nat) (args : LockArgs) (bids : ObjectBidMap)
    (remaining : List (locker_id_t × locker_info_t))
    (hrem : cls_lock_is_exclusive args.lock_type = true → remaining = []) :
    AttrsInv (finishLock now origin args attrs bids remaining).2.attrs := by
  unfold finishLock
  apply AttrsInv_write h
  intro hexcl
  rw [hrem hexcl]
  simp [mapInsert, mapErase]

theorem AttrsInv_bidCheck {attrs : ObjAttrs} (h : AttrsInv attrs)
    (now : Nat) (obj_id : String) (origin : Nat) (args : LockArgs)
    (bids : ObjectBidMap) (ren : Bool)
    (remaining : List (locker_id_t × locker_info_t))
    (hrem : cls_lock_is_exclusive args.lock_type = true → remaining = []) :
    AttrsInv (bidCheck now obj_id origin args attrs bids ren remaining).2.attrs := by
  unfold bidCheck
  split
  · split
    · exact h
    · exact AttrsInv_finishLock h now origin args _ remaining hrem
  · exact AttrsInv_finishLock h now origin args bids remaining hrem

theorem AttrsInv_capacityCheck {attrs : ObjAttrs} (h : AttrsInv attrs)
    (now : Nat) (obj_id : String) (origin : Nat) (args : LockArgs)
    (bids : ObjectBidMap) (extype : ClsLockType) (ren : Bool)
    (remaining : List (locker_id_t × locker_info_t)) :
    AttrsInv (capacityCheck now obj_id origin args attrs bids extype ren
      remaining).2.attrs := by
  unfold capacityCheck
  split
  · exact h
  · next hcond =>
      split
      · exact h
      · apply AttrsInv_bidCheck h
        intro hexcl
        by_cases hrem : remaining = []
        · exact hrem
        · exact absurd ⟨hrem, hexcl⟩ hcond

theorem AttrsInv_withRecord {attrs : ObjAttrs} (h : AttrsInv attrs)
    (now : Nat) (obj_id : String) (origin : Nat) (args : LockArgs)
    (bids : ObjectBidMap) (linfo : lock_info_t) :
    AttrsInv (lock_obj_withRecord now obj_id origin args attrs bids
      linfo).2.attrs := by
  unfold lock_obj_withRecord
  split
  · exact h
  · split
    · split
      · exact h
      · exact AttrsInv_capacityCheck h now obj_id origin args bids _ true _
    · split
      · exact h
      · exact AttrsInv_capacityCheck h now obj_id origin args bids _ false _

theorem WorldInv_lock_obj {w : World} (h : WorldInv w) (now : Nat)
    (obj_id : String) (origin : Nat) (args : LockArgs) :
    WorldInv (lock_obj now obj_id origin args w).2 := by
  unfold WorldInv at *
  unfold lock_obj
  split
  · exact h
  split
  · exact h
  split
  · exact h
  split
  · exact h
  rcases hr : read_lock now w.attrs args.name with ⟨res, attrs1⟩
  have hA : AttrsInv attrs1 := by
    have h2 := AttrsInv_read_lock h now args.name
    rw [hr] at h2
    exact h2
  cases res with
  | error e =>
      simp only []
      split
      · exact AttrsInv_withRecord hA now obj_id origin args _ emptyLockInfo
      · exact hA
  | ok linfo =>
      simp only []
      exact AttrsInv_withRecord hA now obj_id origin args _ linfo

theorem WorldInv_runCalls {w : World} (h : WorldInv w) (now : Nat)
    (obj_id : String) (calls : List (Nat × LockArgs)) :
    WorldInv (runCalls now obj_id calls w).2 := by
  induction calls generalizing w with
  | nil => exact h
  | cons c rest ih =>
      obtain ⟨origin, args⟩ := c
      exact ih (WorldInv_lock_obj h now obj_id origin args)

theorem WorldInv_runCallsAt {w : World} (h : WorldInv w)
    (obj_id : String) (calls : List (Nat × Nat × LockArgs)) :
    WorldInv (runCallsAt obj_id calls w).2 := by
  induction calls generalizing w with
  | nil => exact h
  | cons c rest ih =>
      obtain ⟨now, origin, args⟩ := c
      exact ih (WorldInv_lock_obj h now obj_id origin args)

theorem exclusive_implies_valid {t : ClsLockType}
    (h : cls_lock_is_exclusive t = true) : cls_lock_is_valid t = true := by
  cases t <;> simp_all [cls_lock_is_exclusive, cls_lock_is_valid]

theorem exclBusyRejection_holds (now : Nat) (obj_id : String) (origin : Nat)
    (args : LockArgs) (w : World) :
    exclBusyRejection now obj_id origin args w := by
  intro rec attrs1 hread hexcl hname hflags htag hfound hnotfound hrem
  have hval := exclusive_implies_valid hexcl
  unfold lock_obj
  rw [if_neg (by simp [hval]), if_neg hname, if_neg hflags,
    if_neg (by simp [hexcl]), hread]
  show (lock_obj_withRecord now obj_id origin args attrs1
    (regBids now obj_id origin args w.bids) rec).1 = -EBUSY
  unfold lock_obj_withRecord
  by_cases htagf : rec.lockers ≠ [] ∧ args.tag ≠ rec.tag
  · rw [if_pos htagf]
  · rw [if_neg htagf]
    cases hfind : mapFind rec.lockers ⟨origin, args.cookie⟩ with
    | some info =>
        show (if args.may_renew = false ∧ args.must_renew = false then _
          else capacityCheck now obj_id origin args attrs1 _ rec.lock_type true
            (mapErase rec.lockers ⟨origin, args.cookie⟩)).1 = -EBUSY
        rw [if_neg (hfound (by rw [hfind]; rfl))]
        unfold capacityCheck
        rw [if_pos ⟨hrem, hexcl⟩]
    | none =>
        show (if args.must_renew = true then _
          else capacityCheck now obj_id origin args attrs1 _ rec.lock_type false
            rec.lockers).1 = -EBUSY
        rw [if_neg (by rw [hnotfound hfind]; simp)]
        unfold capacityCheck
        rw [mapErase_eq_self hfind] at hrem
        rw [if_pos ⟨hrem, hexcl⟩]

/-- Inversion of a successful `lock_obj` call: the record written back, the
tag discipline, and (for a non-renewing bidder) the winning-bid equation. -/
theorem lock_obj_success_inv {now : Nat} {obj_id : String} {origin : Nat}
    {args : LockArgs} {w : World} {rec : lock_info_t} {attrs1 : ObjAttrs}
    {w' : World}
    (hread : read_lock now w.attrs args.name = (Except.ok rec, attrs1))
    (hres : lock_obj now obj_id origin args w = (0, w')) :
    w'.attrs = write_lock attrs1 args.name
        ⟨args.lock_type, args.tag,
         mapInsert rec.lockers ⟨origin, args.cookie⟩
           ⟨(if args.duration = 0 then 0 else now + args.duration), origin,
            args.description⟩⟩
    ∧ (rec.lockers ≠ [] → args.tag = rec.tag)
    ∧ (mapFind rec.lockers ⟨origin, args.cookie⟩ = none →
        0 ≤ args.bid_amount →
        args.bid_amount = bestBid now args.bid_amount
          (bidsFor (regBids now obj_id origin args w.bids) obj_id args.name)) := by
  unfold lock_obj at hres
  split at hres
  · exact absurd (congrArg Prod.fst hres) (by simp [EINVAL, EBUSY, EEXIST, ENOENT])
  split at hres
  · exact absurd (congrArg Prod.fst hres) (by simp [EINVAL, EBUSY, EEXIST, ENOENT])
  split at hres
  · exact absurd (congrArg Prod.fst hres) (by simp [EINVAL, EBUSY, EEXIST, ENOENT])
  split at hres
  · exact absurd (congrArg Prod.fst hres) (by simp [EINVAL, EBUSY, EEXIST, ENOENT])
  rw [hread] at hres
  have hres2 : lock_obj_withRecord now obj_id origin args attrs1
      (regBids now obj_id origin args w.bids) rec = (0, w') := hres
  clear hres
  unfold lock_obj_withRecord at hres2
  split at hres2
  · exact absurd (congrArg Prod.fst hres2) (by simp [EINVAL, EBUSY, EEXIST, ENOENT])
  next htagf =>
    have htag : rec.lockers ≠ [] → args.tag = rec.tag := by
      intro hne
      by_contra hc
      exact htagf ⟨hne, hc⟩
    split at hres2
    next info hfind =>
      -- renewal path
      split at hres2
      · exact absurd (congrArg Prod.fst hres2) (by simp [EINVAL, EBUSY, EEXIST, ENOENT])
      · unfold capacityCheck at hres2
        split at hres2
        · exact absurd (congrArg Prod.fst hres2) (by simp [EINVAL, EBUSY, EEXIST, ENOENT])
        split at hres2
        · exact absurd (congrArg Prod.fst hres2) (by simp [EINVAL, EBUSY, EEXIST, ENOENT])
        unfold bidCheck at hres2
        split at hres2
        · split at hres2
          · exact absurd (congrArg Prod.fst hres2) (by simp [EINVAL, EBUSY, EEXIST, ENOENT])
          · unfold finishLock at hres2
            have hw' := (Prod.mk.injEq _ _ _ _).mp hres2 |>.2
            refine ⟨?_, htag, ?_⟩
            · rw [← hw']
              rw [mapInsert_mapErase]
            · intro h0
              rw [hfind] at h0
              cases h0
        · unfold finishLock at hres2
          have hw' := (Prod.mk.injEq _ _ _ _).mp hres2 |>.2
          refine ⟨?_, htag, ?_⟩
          · rw [← hw']
            rw [mapInsert_mapErase]
          · intro h0
            rw [hfind] at h0
            cases h0
    next hfind =>
      -- fresh-grant path
      split at hres2
      · exact absurd (congrArg Prod.fst hres2) (by simp [EINVAL, EBUSY, EEXIST, ENOENT])
      · unfold capacityCheck at hres2
        split at hres2
        · exact absurd (congrArg Prod.fst hres2) (by simp [EINVAL, EBUSY, EEXIST, ENOENT])
        split at hres2
        · exact absurd (congrArg Prod.fst hres2) (by simp [EINVAL, EBUSY, EEXIST, ENOENT])
        unfold bidCheck at hres2
        split at hres2
        next hbidcond =>
          split at hres2
          · exact absurd (congrArg Prod.fst hres2) (by simp [EINVAL, EBUSY, EEXIST, ENOENT])
          next hbest =>
            unfold finishLock at hres2
            have hw' := (Prod.mk.injEq _ _ _ _).mp hres2 |>.2
            refine ⟨?_, htag, ?_⟩
            · rw [← hw']
            · intro _ _
              exact not_ne_iff.mp hbest
        next hbidcond =>
          unfold finishLock at hres2
          have hw' := (Prod.mk.injEq _ _ _ _).mp hres2 |>.2
          refine ⟨?_, htag, ?_⟩
          · rw [← hw']
          · intro _ hbid
            exact absurd ⟨rfl, hbid⟩ hbidcond

/-! ### Claim theorems -/

/-- C6: reading a lock record succeeds with the empty/default record when the
attribute is absent (`-ENODATA`), a stored blob that fails to decode yields
`-EIO`, and any other store error propagates unchanged. -/
theorem C6_codec_errors (now : Nat) :
    read_lock_core now (Except.error (-ENODATA)) =
      (Except.ok emptyLockInfo, false)
    ∧ read_lock_core now (Except.ok Blob.malformed) =
        (Except.error (- EIO), false)
    ∧ storeErrorsPropagate now := by
  refine ⟨rfl, rfl, ?_⟩
  intro e he
  show (if e = -ENODATA then ((Except.ok emptyLockInfo : Except Int lock_info_t), false)
    else (Except.error e, false)) = (Except.error e, false)
  rw [if_neg he]

/-- C1: the exclusivity invariant — every stored record of exclusive kind has
at most one locker — is preserved by each `lock` call and by every sequence
of `lock` calls, and an exclusive acquire that reaches the capacity check
with any other locker remaining is rejected `-EBUSY`. -/
theorem C1_exclusivity (now : Nat) (obj_id : String) (origin : Nat)
    (args : LockArgs) (calls : List (Nat × LockArgs))
    (timedCalls : List (Nat × Nat × LockArgs)) (w : World)
    (hinv : WorldInv w) :
    WorldInv (lock_obj now obj_id origin args w).2
    ∧ WorldInv (runCalls now obj_id calls w).2
    ∧ WorldInv (runCallsAt obj_id timedCalls w).2
    ∧ exclBusyRejection now obj_id origin args w :=
  ⟨WorldInv_lock_obj hinv now obj_id origin args,
   WorldInv_runCalls hinv now obj_id calls,
   WorldInv_runCallsAt hinv obj_id timedCalls,
   exclBusyRejection_holds now obj_id origin args w⟩

theorem C1_exclusivity_witness :
    WorldInv (World.mk [] [])
    ∧ (WorldInv (lock_obj 100 "o" 1
        ⟨"foo", ClsLockType.EXCLUSIVE, 60, "", false, false, "c1", "", -1, 0⟩
        (World.mk [] [])).2
      ∧ WorldInv (runCalls 100 "o"
          [(1, ⟨"foo", ClsLockType.EXCLUSIVE, 60, "", false, false, "c1", "",
            -1, 0⟩)] (World.mk [] [])).2
      ∧ WorldInv (runCallsAt "o"
          [(100, 1, ⟨"foo", ClsLockType.EXCLUSIVE, 60, "", false, false, "c1",
            "", -1, 0⟩)] (World.mk [] [])).2
      ∧ exclBusyRejection 100 "o" 1
          ⟨"foo", ClsLockType.EXCLUSIVE, 60, "", false, false, "c1", "", -1, 0⟩
          (World.mk [] [])) :=
  ⟨fun key rec h => Option.noConfusion h,
   C1_exclusivity 100 "o" 1
     ⟨"foo", ClsLockType.EXCLUSIVE, 60, "", false, false, "c1", "", -1, 0⟩
     [(1, ⟨"foo", ClsLockType.EXCLUSIVE, 60, "", false, false, "c1", "", -1,
       0⟩)]
     [(100, 1, ⟨"foo", ClsLockType.EXCLUSIVE, 60, "", false, false, "c1", "",
       -1, 0⟩)]
     (World.mk [] []) (fun key rec h => Option.noConfusion h)⟩

/-- C4: with any locker present after the sweep and a tag differing from the
record's, the acquire is rejected `-EBUSY`, whatever the renewal flags and
whether or not the caller's own id is present. -/
theorem C4_tag_mismatch_busy (now : Nat) (obj_id : String) (origin : Nat)
    (args : LockArgs) (w : World) (rec : lock_info_t) (attrs1 : ObjAttrs)
    (hval : cls_lock_is_valid args.lock_type = true)
    (hname : args.name ≠ "")
    (hflags : ¬(args.may_renew = true ∧ args.must_renew = true))
    (hbidok : 0 ≤ args.bid_amount → cls_lock_is_exclusive args.lock_type = true)
    (hread : read_lock now w.attrs args.name = (Except.ok rec, attrs1))
    (hne : rec.lockers ≠ [])
    (htag : args.tag ≠ rec.tag) :
    (lock_obj now obj_id origin args w).1 = -EBUSY := by
  unfold lock_obj
  rw [if_neg (by simp [hval]), if_neg hname, if_neg hflags,
    if_neg (fun hc => by rw [hbidok hc.1] at hc; cases hc.2), hread]
  show (lock_obj_withRecord now obj_id origin args attrs1
    (regBids now obj_id origin args w.bids) rec).1 = -EBUSY
  unfold lock_obj_withRecord
  rw [if_pos ⟨hne, htag⟩]

theorem C4_tag_mismatch_busy_witness :
    (lock_obj 100 "o" 1
      ⟨"foo", ClsLockType.EXCLUSIVE, 60, "", false, true, "c1", "b", -1, 0⟩
      (World.mk
        [("lock.foo", Blob.record
          ⟨ClsLockType.EXCLUSIVE, "a", [(⟨2, "c2"⟩, ⟨0, 2, ""⟩)]⟩)] [])).1
      = -EBUSY :=
  C4_tag_mismatch_busy 100 "o" 1 _ _
    ⟨ClsLockType.EXCLUSIVE, "a", [(⟨2, "c2"⟩, ⟨0, 2, ""⟩)]⟩
    [("lock.foo", Blob.record
      ⟨ClsLockType.EXCLUSIVE, "a", [(⟨2, "c2"⟩, ⟨0, 2, ""⟩)]⟩)]
    (by decide) (by decide) (by decide) (fun _ => by decide) (by decide)
    (by decide) (by decide)

/-- C5: while the post-sweep record is non-empty, a successful acquire or
renewal carries the record's tag, and the record written back still bears
that tag. -/
theorem C5_tag_consistency (now : Nat) (obj_id : String) (origin : Nat)
    (args : LockArgs) (w : World) (rec : lock_info_t) (attrs1 : ObjAttrs)
    (w' : World)
    (hread : read_lock now w.attrs args.name = (Except.ok rec, attrs1))
    (hne : rec.lockers ≠ [])
    (hres : lock_obj now obj_id origin args w = (0, w')) :
    args.tag = rec.tag ∧ recordTagAt w'.attrs args.name = some rec.tag := by
  obtain ⟨hattrs, htag, _⟩ := lock_obj_success_inv hread hres
  have ht := htag hne
  refine ⟨ht, ?_⟩
  rw [hattrs]
  unfold recordTagAt write_lock
  rw [mapFind_mapInsert, if_pos rfl]
  show some args.tag = some rec.tag
  exact congrArg some ht

theorem C5_tag_consistency_witness :
    ("t" : String) = "t"
    ∧ recordTagAt (lock_obj 100 "o" 1
        ⟨"foo", ClsLockType.SHARED, 0, "", false, false, "c1", "t", -1, 0⟩
        (World.mk [("lock.foo", Blob.record ⟨ClsLockType.SHARED, "t",
          [(⟨2, "c2"⟩, ⟨0, 2, ""⟩)]⟩)] [])).2.attrs "foo" = some "t" :=
  C5_tag_consistency 100 "o" 1
    ⟨"foo", ClsLockType.SHARED, 0, "", false, false, "c1", "t", -1, 0⟩
    (World.mk [("lock.foo", Blob.record ⟨ClsLockType.SHARED, "t",
      [(⟨2, "c2"⟩, ⟨0, 2, ""⟩)]⟩)] [])
    ⟨ClsLockType.SHARED, "t", [(⟨2, "c2"⟩, ⟨0, 2, ""⟩)]⟩
    [("lock.foo", Blob.record ⟨ClsLockType.SHARED, "t",
      [(⟨2, "c2"⟩, ⟨0, 2, ""⟩)]⟩)]
    _ (by decide) (by decide) (by decide)

/-- C9: a successful renewal by the existing `(identity, cookie)` holder
replaces exactly the caller's own entry — the stored lockers are the old map
with that entry reinserted, the count is unchanged, and every other entry is
untouched. -/
theorem C9_renew_idempotent (now : Nat) (obj_id : String) (origin : Nat)
    (args : LockArgs) (w : World) (rec : lock_info_t) (attrs1 : ObjAttrs)
    (w' : World) (info0 : locker_info_t)
    (hread : read_lock now w.attrs args.name = (Except.ok rec, attrs1))
    (hnodup : (rec.lockers.map Prod.fst).Nodup)
    (hfound : mapFind rec.lockers ⟨origin, args.cookie⟩ = some info0)
    (hmay : args.may_renew = true)
    (hmust : args.must_renew = false)
    (hres : lock_obj now obj_id origin args w = (0, w')) :
    storedLockersAt w'.attrs args.name =
      some (mapInsert rec.lockers ⟨origin, args.cookie⟩
        ⟨(if args.duration = 0 then 0 else now + args.duration), origin,
         args.description⟩)
    ∧ (mapInsert rec.lockers ⟨origin, args.cookie⟩
        ⟨(if args.duration = 0 then 0 else now + args.duration), origin,
         args.description⟩).length = rec.lockers.length
    ∧ mapErase (mapInsert rec.lockers ⟨origin, args.cookie⟩
        ⟨(if args.duration = 0 then 0 else now + args.duration), origin,
         args.description⟩) ⟨origin, args.cookie⟩
        = mapErase rec.lockers ⟨origin, args.cookie⟩ := by
  obtain ⟨hattrs, _, _⟩ := lock_obj_success_inv hread hres
  refine ⟨?_, ?_, mapErase_mapInsert _ _ _⟩
  · rw [hattrs]
    unfold storedLockersAt write_lock
    rw [mapFind_mapInsert, if_pos rfl]
  · unfold mapInsert
    rw [List.length_append]
    exact length_mapErase_of_found hnodup hfound

theorem C9_renew_idempotent_witness :
    storedLockersAt (lock_obj 200 "o" 1
        ⟨"foo", ClsLockType.EXCLUSIVE, 60, "d2", true, false, "c1", "", -1, 0⟩
        (World.mk [("lock.foo", Blob.record ⟨ClsLockType.EXCLUSIVE, "",
          [(⟨1, "c1"⟩, ⟨0, 1, "d1"⟩)]⟩)] [])).2.attrs "foo" =
      some (mapInsert ([(⟨1, "c1"⟩, ⟨0, 1, "d1"⟩)] :
          List (locker_id_t × locker_info_t)) ⟨1, "c1"⟩
        ⟨(if (60 : Nat) = 0 then 0 else 200 + 60), 1, "d2"⟩)
    ∧ (mapInsert ([(⟨1, "c1"⟩, ⟨0, 1, "d1"⟩)] :
          List (locker_id_t × locker_info_t)) ⟨1, "c1"⟩
        ⟨(if (60 : Nat) = 0 then 0 else 200 + 60), 1, "d2"⟩).length =
        ([(⟨1, "c1"⟩, ⟨0, 1, "d1"⟩)] :
          List (locker_id_t × locker_info_t)).length
    ∧ mapErase (mapInsert ([(⟨1, "c1"⟩, ⟨0, 1, "d1"⟩)] :
          List (locker_id_t × locker_info_t)) ⟨1, "c1"⟩
        ⟨(if (60 : Nat) = 0 then 0 else 200 + 60), 1, "d2"⟩) ⟨1, "c1"⟩
        = mapErase ([(⟨1, "c1"⟩, ⟨0, 1, "d1"⟩)] :
            List (locker_id_t × locker_info_t)) ⟨1, "c1"⟩ :=
  C9_renew_idempotent 200 "o" 1
    ⟨"foo", ClsLockType.EXCLUSIVE, 60, "d2", true, false, "c1", "", -1, 0⟩
    (World.mk [("lock.foo", Blob.record ⟨ClsLockType.EXCLUSIVE, "",
      [(⟨1, "c1"⟩, ⟨0, 1, "d1"⟩)]⟩)] [])
    ⟨ClsLockType.EXCLUSIVE, "", [(⟨1, "c1"⟩, ⟨0, 1, "d1"⟩)]⟩
    [("lock.foo", Blob.record ⟨ClsLockType.EXCLUSIVE, "",
      [(⟨1, "c1"⟩, ⟨0, 1, "d1"⟩)]⟩)]
    _ ((⟨0, 1, "d1"⟩ : locker_info_t)) (by decide) (by decide) (by decide)
    (by decide) (by decide) (by decide)

/-- C2: bidding arbitration for a validated, non-renewing, bidded exclusive
acquire — success implies the caller's amount was the minimum unexpired bid
(its own included), a non-minimal amount is rejected `-EBUSY`, and expired
bids never count toward the outcome. -/
theorem C2_bid_arbitration (now : Nat) (obj_id : String) (origin : Nat)
    (args : LockArgs) (w : World) (rec : lock_info_t) (attrs1 : ObjAttrs)
    (hval : cls_lock_is_valid args.lock_type = true)
    (hname : args.name ≠ "")
    (hflags : ¬(args.may_renew = true ∧ args.must_renew = true))
    (hexcl : cls_lock_is_exclusive args.lock_type = true)
    (hbid : 0 ≤ args.bid_amount)
    (hread : read_lock now w.attrs args.name = (Except.ok rec, attrs1))
    (hnew : mapFind rec.lockers ⟨origin, args.cookie⟩ = none) :
    bidSuccessLowest now obj_id origin args w
    ∧ bidNotLowestBusy now obj_id origin args w rec
    ∧ expiredBidsNeverCount now := by
  refine ⟨?_, ?_, ?_⟩
  · intro hres0
    rcases hL : lock_obj now obj_id origin args w with ⟨code, w1⟩
    rw [hL] at hres0
    cases hres0
    obtain ⟨_, _, hbest⟩ := lock_obj_success_inv hread hL
    have heq := hbest hnew hbid
    intro p hp
    rw [heq]
    exact bestBid_le_mem hp _
  · intro hempty hmust hne
    unfold lock_obj
    rw [if_neg (by simp [hval]), if_neg hname, if_neg hflags,
      if_neg (by simp [hexcl]), hread]
    show (lock_obj_withRecord now obj_id origin args attrs1
      (regBids now obj_id origin args w.bids) rec).1 = -EBUSY
    unfold lock_obj_withRecord
    rw [if_neg (fun hc => hc.1 hempty), hnew]
    show (if args.must_renew = true then _
      else capacityCheck now obj_id origin args attrs1
        (regBids now obj_id origin args w.bids) rec.lock_type false
        rec.lockers).1 = -EBUSY
    rw [if_neg (by rw [hmust]; simp)]
    unfold capacityCheck
    rw [if_neg (fun hc => hc.1 hempty), if_neg (fun hc => hc.1 hempty)]
    unfold bidCheck
    rw [if_pos ⟨rfl, hbid⟩, if_pos hne]
  · intro s r brec cbm hexp
    exact bestBid_cons_expired r s cbm hexp

theorem C2_bid_arbitration_witness :
    bidSuccessLowest 100 "obj" 1
      ⟨"foo", ClsLockType.EXCLUSIVE, 0, "", false, false, "c1", "", 5, 50⟩
      (World.mk [] [])
    ∧ bidNotLowestBusy 100 "obj" 1
        ⟨"foo", ClsLockType.EXCLUSIVE, 0, "", false, false, "c1", "", 5, 50⟩
        (World.mk [] []) emptyLockInfo
    ∧ expiredBidsNeverCount 100 :=
  C2_bid_arbitration 100 "obj" 1
    ⟨"foo", ClsLockType.EXCLUSIVE, 0, "", false, false, "c1", "", 5, 50⟩
    (World.mk [] []) emptyLockInfo []
    (by decide) (by decide) (by decide) (by decide) (by decide) (by decide)
    (by decide)

/-- C3: with the three concurrent bids 5, 3, 7 registered and unexpired at
evaluation time 100, whichever of the six orders the three bidded acquire
calls are evaluated in, exactly the call carrying amount 3 succeeds and the
calls carrying 5 and 7 are rejected `-EBUSY`. -/
theorem C3_bid_order_independence :
    (runCalls 100 "obj" [c3call 5 "c5", c3call 3 "c3", c3call 7 "c7"]
      c3World).1 = [-EBUSY, 0, -EBUSY]
    ∧ (runCalls 100 "obj" [c3call 5 "c5", c3call 7 "c7", c3call 3 "c3"]
        c3World).1 = [-EBUSY, -EBUSY, 0]
    ∧ (runCalls 100 "obj" [c3call 3 "c3", c3call 5 "c5", c3call 7 "c7"]
        c3World).1 = [0, -EBUSY, -EBUSY]
    ∧ (runCalls 100 "obj" [c3call 3 "c3", c3call 7 "c7", c3call 5 "c5"]
        c3World).1 = [0, -EBUSY, -EBUSY]
    ∧ (runCalls 100 "obj" [c3call 7 "c7", c3call 5 "c5", c3call 3 "c3"]
        c3World).1 = [-EBUSY, -EBUSY, 0]
    ∧ (runCalls 100 "obj" [c3call 7 "c7", c3call 3 "c3", c3call 5 "c5"]
        c3World).1 = [-EBUSY, 0, -EBUSY] := by
  decide

theorem withRecord_bids_cases (now : Nat) (obj_id : String) (origin : Nat)
    (args : LockArgs) (attrs : ObjAttrs) (bids : ObjectBidMap)
    (linfo : lock_info_t) :
    (lock_obj_withRecord now obj_id origin args attrs bids linfo).2.bids = bids
    ∨ (lock_obj_withRecord now obj_id origin args attrs bids linfo).2.bids =
        setBidsFor bids obj_id args.name
          (pruneBids now (bidsFor bids obj_id args.name)) := by
  unfold lock_obj_withRecord capacityCheck bidCheck finishLock
  repeat' split
  all_goals first | (left; rfl) | (right; rfl)

theorem lock_obj_bids_cases (now : Nat) (obj_id : String) (origin : Nat)
    (args : LockArgs) (w : World)
    (hval : cls_lock_is_valid args.lock_type = true)
    (hname : args.name ≠ "")
    (hflags : ¬(args.may_renew = true ∧ args.must_renew = true))
    (hexcl : cls_lock_is_exclusive args.lock_type = true) :
    (lock_obj now obj_id origin args w).2.bids =
        regBids now obj_id origin args w.bids
    ∨ (lock_obj now obj_id origin args w).2.bids =
        setBidsFor (regBids now obj_id origin args w.bids) obj_id args.name
          (pruneBids now (bidsFor (regBids now obj_id origin args w.bids)
            obj_id args.name)) := by
  unfold lock_obj
  rw [if_neg (by simp [hval]), if_neg hname, if_neg hflags,
    if_neg (by simp [hexcl])]
  rcases hr : read_lock now w.attrs args.name with ⟨res, attrs1⟩
  cases res with
  | error e =>
      dsimp only
      split
      · exact withRecord_bids_cases now obj_id origin args attrs1 _ emptyLockInfo
      · left
        rfl
  | ok linfo =>
      dsimp only
      exact withRecord_bids_cases now obj_id origin args attrs1 _ linfo

/-- C8: a validated bidded call registers (or refreshes) the caller's bid with
expiration `now + bid_duration`, and that registry entry is still present
after the call returns, whatever its outcome. -/
theorem C8_bid_persistence (now : Nat) (obj_id : String) (origin : Nat)
    (args : LockArgs) (w : World)
    (hval : cls_lock_is_valid args.lock_type = true)
    (hname : args.name ≠ "")
    (hflags : ¬(args.may_renew = true ∧ args.must_renew = true))
    (hexcl : cls_lock_is_exclusive args.lock_type = true)
    (hbid : 0 ≤ args.bid_amount) :
    mapFind (bidsFor (lock_obj now obj_id origin args w).2.bids obj_id
      args.name) origin = some ⟨args.bid_amount, now + args.bid_duration⟩ := by
  have hreg : regBids now obj_id origin args w.bids =
      registerBid w.bids obj_id args.name origin
        ⟨args.bid_amount, now + args.bid_duration⟩ := by
    unfold regBids
    rw [if_pos hbid]
  rcases lock_obj_bids_cases now obj_id origin args w hval hname hflags hexcl
    with hc | hc
  · rw [hc, hreg, bidsFor_registerBid, mapFind_mapInsert, if_pos rfl]
  · rw [hc, bidsFor_setBidsFor, hreg, bidsFor_registerBid]
    exact mapFind_pruneBids_mapInsert _ origin
      (show ¬ now + args.bid_duration < now by omega)

theorem C8_bid_persistence_witness :
    mapFind (bidsFor (lock_obj 100 "obj" 1
      ⟨"foo", ClsLockType.EXCLUSIVE, 0, "", false, false, "c1", "", 5, 50⟩
      (World.mk
        [("lock.foo", Blob.record
          ⟨ClsLockType.EXCLUSIVE, "other", [(⟨2, "c2"⟩, ⟨0, 2, ""⟩)]⟩)]
        [])).2.bids "obj" "foo") 1 = some ⟨5, 100 + 50⟩ :=
  C8_bid_persistence 100 "obj" 1
    ⟨"foo", ClsLockType.EXCLUSIVE, 0, "", false, false, "c1", "", 5, 50⟩
    (World.mk
      [("lock.foo", Blob.record
        ⟨ClsLockType.EXCLUSIVE, "other", [(⟨2, "c2"⟩, ⟨0, 2, ""⟩)]⟩)] [])
    (by decide) (by decide) (by decide) (by decide) (by decide)

/-- Reading an absent attribute yields the default record and leaves the
store untouched. -/
theorem read_lock_absent (now : Nat) {attrs : ObjAttrs} {name : String}
    (h : mapFind attrs (lockKey name) = none) :
    read_lock now attrs name = (Except.ok emptyLockInfo, attrs) := by
  unfold read_lock read_lock_core getxattr
  rw [h]
  simp

/-- Reading a malformed attribute yields `-EIO` and leaves the store
untouched. -/
theorem read_lock_malformed (now : Nat) {attrs : ObjAttrs} {name : String}
    (h : mapFind attrs (lockKey name) = some Blob.malformed) :
    read_lock now attrs name = (Except.error (- EIO), attrs) := by
  unfold read_lock read_lock_core getxattr
  rw [h]

/-- Reading a stored record yields it with expired lockers swept, deleting
the attribute when the swept record is empty and ephemeral. -/
theorem read_lock_record (now : Nat) {attrs : ObjAttrs} {name : String}
    {rec0 : lock_info_t}
    (h : mapFind attrs (lockKey name) = some (Blob.record rec0)) :
    read_lock now attrs name =
      (Except.ok { rec0 with lockers := sweepLockers now rec0.lockers },
       if (sweepLockers now rec0.lockers).isEmpty &&
           cls_lock_is_ephemeral rec0.lock_type = true
       then mapErase attrs (lockKey name) else attrs) := by
  unfold read_lock read_lock_core getxattr
  rw [h]
  cases hB : (sweepLockers now rec0.lockers).isEmpty &&
    cls_lock_is_ephemeral rec0.lock_type <;> simp [hB]

/-- C10: under the exclusivity invariant on the stored record (an ephemeral
record holds at most one locker), the `ceph_assert` in the release path can
never fire — `remove_lock` returns a result on every input. -/
theorem C10_release_assert_safe (now : Nat) (attrs : ObjAttrs) (name : String)
    (locker : Nat) (cookie : String)
    (hinv : ∀ rec, mapFind attrs (lockKey name) = some (Blob.record rec) →
      cls_lock_is_ephemeral rec.lock_type = true → rec.lockers.length ≤ 1) :
    (remove_lock now attrs name locker cookie).isSome = true := by
  cases hM : mapFind attrs (lockKey name) with
  | none =>
      unfold remove_lock
      rw [read_lock_absent now hM]
      rfl
  | some b =>
      cases b with
      | malformed =>
          unfold remove_lock
          rw [read_lock_malformed now hM]
          rfl
      | record rec0 =>
          unfold remove_lock
          rw [read_lock_record now hM]
          dsimp only
          cases hF : mapFind (sweepLockers now rec0.lockers) ⟨locker, cookie⟩ with
          | none => rfl
          | some info =>
              dsimp only
              by_cases heph : cls_lock_is_ephemeral rec0.lock_type = true
              · rw [if_pos heph]
                have hlen : (sweepLockers now rec0.lockers).length ≤ 1 :=
                  le_trans (List.length_filter_le _ _) (hinv rec0 hM heph)
                rw [if_pos (mapErase_eq_nil_of_short hlen hF)]
                rfl
              · rw [if_neg heph]
                rfl

theorem C10_release_assert_safe_witness :
    (remove_lock 100
      [("lock.foo", Blob.record ⟨ClsLockType.EXCLUSIVE_EPHEMERAL, "",
        [(⟨1, "c1"⟩, ⟨0, 1, ""⟩)]⟩)] "foo" 1 "c1").isSome = true :=
  C10_release_assert_safe 100
    [("lock.foo", Blob.record ⟨ClsLockType.EXCLUSIVE_EPHEMERAL, "",
      [(⟨1, "c1"⟩, ⟨0, 1, ""⟩)]⟩)] "foo" 1 "c1"
    (fun rec h hep => by
      rw [show mapFind
        [("lock.foo", Blob.record ⟨ClsLockType.EXCLUSIVE_EPHEMERAL, "",
          [(⟨1, "c1"⟩, ⟨0, 1, ""⟩)]⟩)] (lockKey "foo") =
        some (Blob.record ⟨ClsLockType.EXCLUSIVE_EPHEMERAL, "",
          [(⟨1, "c1"⟩, ⟨0, 1, ""⟩)]⟩) from by decide] at h
      cases h
      decide)

/-- C7 counterexample: at time 100 a release for an id absent from the
post-sweep record does return the not-found error, but it does not write
nothing — the read-time sweep deleted the swept-empty ephemeral record, so
the store after the call (empty) differs from the store before it. -/
theorem C7_release_writes_nothing_cex :
    remove_lock 100 c7attrs "foo" 2 "x" = some (-ENOENT, [])
    ∧ ([] : ObjAttrs) ≠ c7attrs := by
  decide

/-- Unfolding `lockKey` at character-list level. -/
theorem lockKey_data (name : String) :
    (lockKey name).data = "lock.".data ++ name.data := rfl

/-- When no attribute is stored under `lockKey name`, `list_locks` does not
report `name`. -/
theorem not_mem_list_locks {attrs : ObjAttrs} {name : String}
    (h : mapFind attrs (lockKey name) = none) : name ∉ list_locks attrs := by
  intro hmem
  unfold list_locks at hmem
  obtain ⟨p, hp, heq⟩ := List.mem_filterMap.mp hmem
  by_cases htake : p.1.data.take 5 = "lock.".data
  · rw [if_pos htake] at heq
    injection heq with heq2
    have hdrop : p.1.data.drop 5 = name.data := congrArg String.data heq2
    have hdata : p.1.data = (lockKey name).data := by
      rw [lockKey_data, ← htake, ← hdrop]
      exact (List.take_append_drop 5 p.1.data).symm
    exact mapFind_none_forall h p hp (String.ext hdata)
  · rw [if_neg htake] at heq
    cases heq

/-- C7 (amended): release fails `-ENOENT` leaving the post-read state when
the id is absent; removing the found locker of an ephemeral record deletes
the attribute, hiding the name from `list_locks` and making `get_info`
return the default record; any other kind is rewritten without the entry. -/
theorem C7_release_semantics (now : Nat) (attrs : ObjAttrs) (name : String)
    (locker : Nat) (cookie : String) :
    releaseNotFound now attrs name locker cookie
    ∧ releaseEphemeralDeletes now attrs name locker cookie
    ∧ releaseOtherRewrites now attrs name locker cookie := by
  refine ⟨?_, ?_, ?_⟩
  · intro rec attrs1 hread hfind
    unfold remove_lock
    rw [hread]
    dsimp only
    rw [hfind]
  · intro rec attrs1 info hread hfind heph hlen
    have hnil := mapErase_eq_nil_of_short hlen hfind
    refine ⟨?_, ?_, ?_⟩
    · unfold remove_lock
      rw [hread]
      dsimp only
      rw [hfind]
      dsimp only
      rw [if_pos heph, if_pos hnil]
    · apply not_mem_list_locks
      rw [mapFind_mapErase, if_pos rfl]
    · intro now2
      unfold get_info
      rw [read_lock_absent now2 (by rw [mapFind_mapErase, if_pos rfl])]
  · intro rec attrs1 info hread hfind heph
    unfold remove_lock
    rw [hread]
    dsimp only
    rw [hfind]
    dsimp only
    rw [if_neg (by rw [heph]; simp)]

theorem C6_codec_errors_witness :
    read_lock_core 0 (Except.error (-ENODATA)) =
      (Except.ok emptyLockInfo, false)
    ∧ read_lock_core 0 (Except.ok Blob.malformed) =
        (Except.error (- EIO), false)
    ∧ storeErrorsPropagate 0 :=
  C6_codec_errors 0

theorem C7_release_semantics_witness :
    releaseNotFound 100 c7attrs "foo" 2 "x"
    ∧ releaseEphemeralDeletes 100 c7attrs "foo" 2 "x"
    ∧ releaseOtherRewrites 100 c7attrs "foo" 2 "x" :=
  C7_release_semantics 100 c7attrs "foo" 2 "x"

end LockCls
